import Mathlib

/-!
Shallow embedding of the scanimation generator (`make_scanimation.py`).

Images are modelled as a declared width/height together with a total pixel
function `ℕ → ℕ → Pixel`; only pixels at coordinates below the declared
dimensions are meaningful, and every theorem restricts attention to them.
Pillow's `crop` and `paste` are modelled for the in-bounds boxes the script
uses.  The command-line `--slice` value is an arbitrary integer, hence the
`ℤ` slice parameters.
-/

namespace Scanimation

/-- An 8-bit RGBA pixel (channel values are naturals; the program only ever
stores values in 0..255). -/
structure Pixel where
  r : ℕ
  g : ℕ
  b : ℕ
  a : ℕ
deriving DecidableEq, Repr

/-- An image: declared dimensions plus a total pixel function. -/
structure Img where
  width : ℕ
  height : ℕ
  px : ℕ → ℕ → Pixel

/-- Model of `Image.new(mode, (W, H), color)`: a solid image. -/
def Img.new (W H : ℕ) (p : Pixel) : Img :=
  { width := W, height := H, px := fun _ _ => p }

/-- Default image used for the (unreachable) out-of-range list lookup. -/
def emptyImg : Img := Img.new 0 0 ⟨0, 0, 0, 0⟩

/-- Model of Pillow `im.crop((x0, y0, x1, y1))` for an in-bounds box: the
result is a `(x1-x0) × (y1-y0)` image whose pixel `(c, r)` is the source
pixel `(x0+c, y0+r)`. -/
def crop (im : Img) (x0 y0 x1 y1 : ℕ) : Img :=
  { width := x1 - x0, height := y1 - y0, px := fun c r => im.px (x0 + c) (y0 + r) }

/-- Model of Pillow `dst.paste(src, (x0, y0))`: the source is copied to the
box starting at `(x0, y0)`, clipped to the destination bounds. -/
def paste (dst src : Img) (x0 y0 : ℕ) : Img :=
  { dst with
    px := fun c r =>
      if x0 ≤ c ∧ c < x0 + src.width ∧ y0 ≤ r ∧ r < y0 + src.height ∧
          c < dst.width ∧ r < dst.height then
        src.px (c - x0) (r - y0)
      else dst.px c r }

/-- Python `range(0, stop, step)` for `step ≥ 1`: the multiples of `step`
below `stop`. -/
def pyRange (stop step : ℕ) : List ℕ :=
  List.range' 0 ((stop + step - 1) / step) step

/-- Line 86 / 99 of `main.py`: `slice_w = max(1, min(slice_w, W))`, the
slice clamped to `[1, limit]`. -/
def clampSlice (slice : ℤ) (limit : ℕ) : ℕ :=
  (max 1 (min slice (limit : ℤ))).toNat

/-- The source image pasted for the vertical stripe starting at column `x`
(lines 89-92 of `main.py`): frame `(x / s) % N` cropped to columns
`[x, min (x+s) W)` and rows `[0, H)`. -/
def interSrcV (frames : List Img) (s W H x : ℕ) : Img :=
  crop (frames.getD ((x / s) % frames.length) emptyImg) x 0 (min (x + s) W) H

/-- `interlace_vertical(frames, W, H, slice_w)` (lines 83-94 of `main.py`):
clamp the slice, start from a fully transparent canvas and paste one cropped
stripe per slice-aligned start column. -/
def interlace_vertical (frames : List Img) (W H : ℕ) (slice_w : ℤ) : Img :=
  let s := clampSlice slice_w W
  (pyRange W s).foldl (fun out x => paste out (interSrcV frames s W H x) x 0)
    (Img.new W H ⟨0, 0, 0, 0⟩)

/-- The source image pasted for the horizontal stripe starting at row `y`
(lines 102-105 of `main.py`). -/
def interSrcH (frames : List Img) (s W H y : ℕ) : Img :=
  crop (frames.getD ((y / s) % frames.length) emptyImg) 0 y W (min (y + s) H)

/-- `interlace_horizontal(frames, W, H, slice_h)` (lines 96-106 of
`main.py`): the transposed analogue of `interlace_vertical`. -/
def interlace_horizontal (frames : List Img) (W H : ℕ) (slice_h : ℤ) : Img :=
  let s := clampSlice slice_h H
  (pyRange H s).foldl (fun out y => paste out (interSrcH frames s W H y) 0 y)
    (Img.new W H ⟨0, 0, 0, 0⟩)

/-- `make_mask(W, H, slice_px, N, direction)` (lines 108-121 of `main.py`):
an opaque black canvas with a transparent slit of size `max 1 slice_px`
pasted every `period = slice × N` pixels along the chosen axis. -/
def make_mask (W H : ℕ) (slice_px : ℤ) (N : ℕ) (direction : String) : Img :=
  let s := (max 1 slice_px).toNat
  let period := s * N
  let mask := Img.new W H ⟨0, 0, 0, 255⟩
  if direction = "vertical" then
    (pyRange W period).foldl (fun m x => paste m (Img.new s H ⟨0, 0, 0, 0⟩) x 0) mask
  else
    (pyRange H period).foldl (fun m y => paste m (Img.new W s ⟨0, 0, 0, 0⟩) 0 y) mask

/-- Model of Pillow `im.resize((W, H), LANCZOS)`: the resampling filter is
external; only the output dimensions matter to this development, and
nearest-neighbour sampling stands in for the resampled pixel content. -/
def resize (im : Img) (W H : ℕ) : Img :=
  { width := W, height := H,
    px := fun c r => im.px (c * im.width / max 1 W) (r * im.height / max 1 H) }

/-- The per-frame loop of `unify_sizes` (lines 74-79 of `main.py`): resize
each frame whose size differs from the target, pass the rest through. -/
def resizeAll (imgs : List Img) (W H : ℕ) : List Img :=
  imgs.map fun im => if im.width ≠ W ∨ im.height ≠ H then resize im W H else im

/-- The minimum of a list of naturals, as Python `min(...)` computes it on a
nonempty generator (the value on `[]` is irrelevant: Python raises there). -/
def listMin : List ℕ → ℕ
  | [] => 0
  | [x] => x
  | x :: y :: xs => min x (listMin (y :: xs))

/-- The ways `unify_sizes` can fail: `imgs[0]` on an empty list raises
`IndexError`; `min(...)` on an empty generator raises `ValueError`.  An
`emptyFrameSet` kind is included to state the spec's claimed error, which
the code never produces. -/
inductive UnifyError
  | indexError
  | valueError
  | emptyFrameSet
deriving DecidableEq, Repr

/-- `unify_sizes(imgs, mode)` (lines 68-80 of `main.py`): pick the target
size from the first frame (`"first"`) or the per-axis minima (any other
mode, i.e. `"min"`), then resize every frame to it. -/
def unify_sizes (imgs : List Img) (mode : String) :
    Except UnifyError (List Img × ℕ × ℕ) :=
  if mode = "first" then
    match imgs with
    | [] => .error .indexError
    | im0 :: _ => .ok (resizeAll imgs im0.width im0.height, im0.width, im0.height)
  else
    match imgs with
    | [] => .error .valueError
    | _ :: _ =>
      let W := listMin (imgs.map Img.width)
      let H := listMin (imgs.map Img.height)
      .ok (resizeAll imgs W H, W, H)

/-- Whether an `Except` result is a success. -/
def exceptIsOk {α : Type} (e : Except UnifyError α) : Bool :=
  match e with
  | .ok _ => true
  | .error _ => false

/-- One channel of Pillow's masked `paste` blend `bg*(255-m)/255 + fg*m/255`
(external library code): modelled as the standard rounded linear blend.  At
the mask extremes `m = 0` and `m = 255` — the only values this development
reasons about — every sensible rounding gives exactly `bg` and `fg`. -/
def blend (bg fg m : ℕ) : ℕ :=
  (fg * m + bg * (255 - m) + 127) / 255

/-- `composite_on_white(img)` (lines 123-129 of `main.py`) on an RGBA image
(the only mode the pipeline produces): paste the image over a solid white
background using its own alpha channel as the mask; the result is an RGB
image, modelled as alpha 255 everywhere. -/
def composite_on_white (img : Img) : Img :=
  { width := img.width, height := img.height,
    px := fun c r =>
      let p := img.px c r
      { r := blend 255 p.r p.a, g := blend 255 p.g p.a, b := blend 255 p.b p.a,
        a := 255 } }

/-- `base.convert("RGB")` (line 159 of `main.py`): drop the alpha channel,
keeping RGB unchanged; the opaque result is modelled as alpha 255. -/
def convert_rgb (img : Img) : Img :=
  { width := img.width, height := img.height,
    px := fun c r =>
      let p := img.px c r
      { r := p.r, g := p.g, b := p.b, a := 255 } }

/-- The environment `main` runs in: whether the `--dir` folder exists, the
file list `collect_files` returns (already filtered and naturally sorted —
external concerns), and the external image decoder (`none` models a decode
failure for that file). -/
structure Env where
  dirExists : Bool
  folder : String
  exts : List String
  files : List String
  decode : String → Option Img

/-- The command-line options consumed by the core pipeline. -/
structure Args where
  slice : ℤ
  direction : String
  resize : String
  out_base : String
  out_mask : Option String
  force_rgb : Bool
  white_bg : Bool

/-- An observable output effect of a run: a file saved to disk. -/
inductive Effect
  | save (name : String) (img : Img)

/-- How a run ends: `abort` models `raise SystemExit(msg)` (message printed,
exit code 1), `crash` an uncaught exception, `success` a normal exit. -/
inductive Outcome
  | abort (msg : String) (code : ℕ)
  | crash
  | success

/-- The error message of line 140 of `main.py`. -/
def insufficientMsg (env : Env) : String :=
  "[ERROR] Found " ++ toString env.files.length ++ " image(s) in " ++
    env.folder ++ " with exts " ++ toString env.exts ++ ". Need at least 2."

/-- The error message of line 135 of `main.py`. -/
def folderNotFoundMsg (env : Env) : String :=
  "[ERROR] Folder not found: " ++ env.folder

/-- `load_frames(files)` (lines 58-66 of `main.py`): decode every file in
order; the first decode failure aborts the run with its message. -/
def load_frames (decode : String → Option Img) : List String → Except String (List Img)
  | [] => .ok []
  | f :: fs =>
    match decode f with
    | none => .error ("[ERROR] Failed to open image: " ++ f)
    | some im =>
      match load_frames decode fs with
      | .error m => .error m
      | .ok ims => .ok (im :: ims)

/-- The base canvas built at lines 149-152 of `main.py` from the unified
frames. -/
def baseCanvas (frames : List Img) (W H : ℕ) (args : Args) : Img :=
  if args.direction = "vertical" then interlace_vertical frames W H args.slice
  else interlace_horizontal frames W H args.slice

/-- The optional post-pass of lines 155-159 of `main.py`: white-background
compositing takes precedence over the force-RGB conversion. -/
def postPass (args : Args) (base : Img) : Img :=
  if args.white_bg then composite_on_white base
  else if args.force_rgb then convert_rgb base
  else base

/-- The files a successful run saves, in order (lines 161-172 of
`main.py`): the post-processed base image, then the mask when requested. -/
def mainOutputs (args : Args) (frames : List Img) (W H : ℕ) : List Effect :=
  match args.out_mask with
  | some m =>
    [Effect.save args.out_base (postPass args (baseCanvas frames W H args)),
     Effect.save m (make_mask W H args.slice frames.length args.direction)]
  | none => [Effect.save args.out_base (postPass args (baseCanvas frames W H args))]

/-- `main()` (lines 131-172 of `main.py`) as a function from the environment
and arguments to the list of files saved and the run's outcome.  Directory
checks, argument parsing and the actual encoding are external; the control
flow, error checks and the images handed to the encoder are modelled. -/
def mainRun (env : Env) (args : Args) : List Effect × Outcome :=
  if env.dirExists = false then ([], .abort (folderNotFoundMsg env) 1)
  else if env.files.length < 2 then ([], .abort (insufficientMsg env) 1)
  else
    match load_frames env.decode env.files with
    | .error m => ([], .abort m 1)
    | .ok frames0 =>
      match unify_sizes frames0 args.resize with
      | .error _ => ([], .crash)
      | .ok (frames, W, H) => (mainOutputs args frames W H, .success)

/-! ### Concrete fixtures used by the witnesses -/

/-- Solid 4×2 red frame of the spec's concrete scenario. -/
def redF : Img := Img.new 4 2 ⟨255, 0, 0, 255⟩

/-- Solid 4×2 green frame of the spec's concrete scenario. -/
def greenF : Img := Img.new 4 2 ⟨0, 255, 0, 255⟩

/-- Solid 4×2 blue frame of the spec's concrete scenario. -/
def blueF : Img := Img.new 4 2 ⟨0, 0, 255, 255⟩

/-- A small canvas with one fully transparent and one fully opaque pixel. -/
def testCanvas : Img :=
  { width := 2, height := 1,
    px := fun c _ => if c = 0 then ⟨7, 8, 9, 0⟩ else ⟨10, 20, 30, 255⟩ }

/-- A one-file environment for the C8 witness. -/
def envOneFile : Env :=
  { dirExists := true, folder := "frames", exts := ["png"], files := ["a.png"],
    decode := fun _ => some (Img.new 3 2 ⟨1, 2, 3, 4⟩) }

/-- Default arguments used by the witnesses. -/
def argsDefault : Args :=
  { slice := 1, direction := "vertical", resize := "first",
    out_base := "scanimation_base.png", out_mask := none,
    force_rgb := false, white_bg := false }

/-- A two-file environment for the C10 witness. -/
def envTwoFiles : Env :=
  { dirExists := true, folder := "frames", exts := ["png"], files := ["a.png", "b.png"],
    decode := fun _ => some (Img.new 3 2 ⟨1, 2, 3, 4⟩) }

/-- Arguments requesting both post-pass options for the C10 witness. -/
def argsBothPost : Args :=
  { slice := 1, direction := "vertical", resize := "first",
    out_base := "scanimation_base.png", out_mask := some "mask.png",
    force_rgb := true, white_bg := true }

/-- Whether every pixel of column `c` (over the image's whole declared
height) has alpha value `v`. -/
def colAllAlpha (m : Img) (c v : ℕ) : Bool :=
  (List.range m.height).all fun r => decide ((m.px c r).a = v)

/-- The paste of `g x` at `(x, 0)` covers column `c`, row `r` of its
source box. -/
def touches (g : ℕ → Img) (x c r : ℕ) : Prop :=
  x ≤ c ∧ c < x + (g x).width ∧ r < (g x).height

/-! ### Generic facts about the paste loops -/

lemma foldl_paste_width (g : ℕ → Img) (L : List ℕ) (out : Img) :
    (L.foldl (fun o x => paste o (g x) x 0) out).width = out.width := by
  induction L generalizing out with
  | nil => rfl
  | cons x xs ih => exact ih (paste out (g x) x 0)

lemma foldl_paste_height (g : ℕ → Img) (L : List ℕ) (out : Img) :
    (L.foldl (fun o x => paste o (g x) x 0) out).height = out.height := by
  induction L generalizing out with
  | nil => rfl
  | cons x xs ih => exact ih (paste out (g x) x 0)

lemma foldl_paste_px_untouched (g : ℕ → Img) (L : List ℕ) (out : Img) (c r : ℕ)
    (h : ∀ x ∈ L, ¬ touches g x c r) :
    (L.foldl (fun o x => paste o (g x) x 0) out).px c r = out.px c r := by
  induction L generalizing out with
  | nil => rfl
  | cons x xs ih =>
    rw [List.foldl_cons, ih _ fun y hy => h y (List.mem_cons_of_mem _ hy)]
    have hx : ¬ touches g x c r := h x (List.mem_cons_self ..)
    simp only [paste, touches] at hx ⊢
    rw [if_neg]
    rintro ⟨h1, h2, -, h4, -, -⟩
    exact hx ⟨h1, h2, by omega⟩

lemma paste_px_in (dst src : Img) (x0 y0 c r : ℕ) (h1 : x0 ≤ c)
    (h2 : c < x0 + src.width) (h3 : y0 ≤ r) (h4 : r < y0 + src.height)
    (h5 : c < dst.width) (h6 : r < dst.height) :
    (paste dst src x0 y0).px c r = src.px (c - x0) (r - y0) := by
  simp only [paste]
  rw [if_pos ⟨h1, h2, h3, h4, h5, h6⟩]

lemma foldl_paste_px_hit (g : ℕ → Img) (L1 L2 : List ℕ) (x0 : ℕ) (out : Img)
    (c r : ℕ) (h0 : touches g x0 c r) (hw : c < out.width) (hh : r < out.height)
    (h2 : ∀ x ∈ L2, ¬ touches g x c r) :
    ((L1 ++ x0 :: L2).foldl (fun o x => paste o (g x) x 0) out).px c r
      = (g x0).px (c - x0) r := by
  rw [List.foldl_append, List.foldl_cons, foldl_paste_px_untouched g L2 _ c r h2]
  have hW := foldl_paste_width g L1 out
  have hH := foldl_paste_height g L1 out
  obtain ⟨a1, a2, a3⟩ := h0
  rw [paste_px_in _ _ _ _ _ _ a1 a2 (Nat.zero_le r) (by omega)
    (by rw [hW]; exact hw) (by rw [hH]; exact hh), Nat.sub_zero]

/-! ### Arithmetic helpers for slice-aligned stripes -/

lemma div_eq_of_between {s i c : ℕ} (hs : 0 < s) (h1 : s * i ≤ c)
    (h2 : c < s * i + s) : c / s = i := by
  refine Nat.le_antisymm ?_ ((Nat.le_div_iff_mul_le hs).2 (by rw [Nat.mul_comm]; exact h1))
  have := (Nat.div_lt_iff_lt_mul hs).2
    (show c < (i + 1) * s by rw [Nat.add_mul, Nat.one_mul, Nat.mul_comm i s]; exact h2)
  omega

lemma stripe_count_pos {W s : ℕ} (hs : 1 ≤ s) (hW : 1 ≤ W) :
    (W + s - 1) / s = (W - 1) / s + 1 := by
  rw [show W + s - 1 = (W - 1) + s * 1 by omega, Nat.add_mul_div_left _ _ hs]

lemma div_lt_stripe_count {c W s : ℕ} (hs : 1 ≤ s) (hc : c < W) :
    c / s < (W + s - 1) / s := by
  rw [stripe_count_pos hs (by omega)]
  exact Nat.lt_succ_of_le (Nat.div_le_div_right (by omega))

lemma mem_pyRange {x W s : ℕ} :
    x ∈ pyRange W s ↔ ∃ i < (W + s - 1) / s, x = s * i := by
  simp [pyRange, List.mem_range']

lemma mod_mul_lt_iff {c s N : ℕ} (hs : 0 < s) :
    c % (s * N) < s ↔ (c / s) % N = 0 := by
  rw [← Nat.mod_mul_right_div_self, Nat.div_eq_zero_iff hs]

/-! ### Pixel-level characterization of the vertical interlacer -/

lemma interlace_px_core (frames : List Img) (W H s : ℕ) (hs : 1 ≤ s)
    (c r : ℕ) (hc : c < W) (hr : r < H) :
    ((pyRange W s).foldl
        (fun out x => paste out (interSrcV frames s W H x) x 0)
        (Img.new W H ⟨0, 0, 0, 0⟩)).px c r
      = (frames.getD ((c / s) % frames.length) emptyImg).px c r := by
  have hs0 : 0 < s := hs
  have hle : s * (c / s) ≤ c := Nat.mul_div_le c s
  have hlt : c < s * (c / s) + s := by
    have h1 := Nat.div_add_mod c s
    have h2 := Nat.mod_lt c hs0
    omega
  have hi0 : c / s < (W + s - 1) / s := div_lt_stripe_count hs hc
  have hsplit : pyRange W s
      = List.range' 0 (c / s) s ++ s * (c / s) ::
          List.range' (s * (c / s + 1)) ((W + s - 1) / s - (c / s + 1)) s := by
    have happ := List.range'_append 0 (c / s + 1) ((W + s - 1) / s - (c / s + 1)) s
    rw [show (W + s - 1) / s - (c / s + 1) + (c / s + 1) = (W + s - 1) / s
      by omega] at happ
    unfold pyRange
    rw [← happ, List.range'_concat]
    simp [Nat.mul_add]
  have h0 : touches (interSrcV frames s W H) (s * (c / s)) c r := by
    simp only [touches, interSrcV, crop]
    omega
  have h2 : ∀ x ∈ List.range' (s * (c / s + 1)) ((W + s - 1) / s - (c / s + 1)) s,
      ¬ touches (interSrcV frames s W H) x c r := by
    intro x hx
    rw [List.mem_range'] at hx
    obtain ⟨i, hi, rfl⟩ := hx
    simp only [touches, interSrcV, crop]
    have hmul : s * (c / s + 1) = s * (c / s) + s := by
      rw [Nat.mul_add, Nat.mul_one]
    omega
  rw [hsplit, foldl_paste_px_hit (interSrcV frames s W H) _ _ _ _ _ _ h0 hc hr h2]
  simp only [interSrcV, crop]
  rw [Nat.mul_div_cancel_left _ hs0, Nat.zero_add,
    show s * (c / s) + (c - s * (c / s)) = c by omega]

lemma clampSlice_pos (S : ℤ) (W : ℕ) : 1 ≤ clampSlice S W := by
  simp only [clampSlice]
  omega

lemma clampSlice_eq_of_le {S : ℤ} {W : ℕ} (h1 : 1 ≤ S) (hSW : S ≤ (W : ℤ)) :
    clampSlice S W = S.toNat := by
  simp only [clampSlice]
  omega

lemma clampSlice_eq_of_gt {S : ℤ} {W : ℕ} (hW : 1 ≤ W) (hSW : (W : ℤ) < S) :
    clampSlice S W = W := by
  simp only [clampSlice]
  omega

/-- C1: for every frame count N ≥ 2, slice size S ≥ 1 and unified size
(W, H), the canvas produced by the vertical interlacer holds, at each
in-bounds position (x, y), exactly the pixel of frame ⌊x / S⌋ mod N at the
same position. -/
theorem interlace_vertical_pixel_formula (frames : List Img) (W H : ℕ)
    (S : ℤ) (x y : ℕ) (hN : 2 ≤ frames.length) (hS : 1 ≤ S) (hx : x < W)
    (hy : y < H) :
    (interlace_vertical frames W H S).px x y
      = (frames.getD ((x / S.toNat) % frames.length) emptyImg).px x y := by
  have hcore := interlace_px_core frames W H (clampSlice S W)
    (clampSlice_pos S W) x y hx hy
  show ((pyRange W (clampSlice S W)).foldl
      (fun out z => paste out (interSrcV frames (clampSlice S W) W H z) z 0)
      (Img.new W H ⟨0, 0, 0, 0⟩)).px x y = _
  rw [hcore]
  rcases le_or_lt S (W : ℤ) with h | h
  · rw [clampSlice_eq_of_le hS h]
  · rw [clampSlice_eq_of_gt (by omega) h, Nat.div_eq_of_lt hx,
      Nat.div_eq_of_lt (show x < S.toNat by omega)]

/-- Witness for C1: the 3-frame, slice-2, 4×2 scenario — column 2 shows
frame 1 (green), and the blue frame 2 never appears anywhere on the
canvas (truncation, not wrap-around). -/
theorem interlace_vertical_pixel_formula_witness :
    (interlace_vertical [redF, greenF, blueF] 4 2 2).px 2 1
      = ([redF, greenF, blueF].getD
          ((2 / (2 : ℤ).toNat) % [redF, greenF, blueF].length) emptyImg).px 2 1
    ∧ (∀ x < 4, ∀ y < 2,
        (interlace_vertical [redF, greenF, blueF] 4 2 2).px x y ≠ ⟨0, 0, 255, 255⟩) :=
  ⟨interlace_vertical_pixel_formula [redF, greenF, blueF] 4 2 2 2 1
      (by decide) (by decide) (by decide) (by decide),
   by decide⟩

/-! ### Pixel-level characterization of the vertical mask -/

lemma pyRange_split {c W s : ℕ} (hs : 1 ≤ s) (hc : c < W) :
    pyRange W s = List.range' 0 (c / s) s ++ s * (c / s) ::
      List.range' (s * (c / s + 1)) ((W + s - 1) / s - (c / s + 1)) s := by
  have hi0 : c / s < (W + s - 1) / s := div_lt_stripe_count hs hc
  have happ := List.range'_append 0 (c / s + 1) ((W + s - 1) / s - (c / s + 1)) s
  rw [show (W + s - 1) / s - (c / s + 1) + (c / s + 1) = (W + s - 1) / s
    by omega] at happ
  unfold pyRange
  rw [← happ, List.range'_concat]
  simp [Nat.mul_add]

lemma make_mask_vertical_eq (W H : ℕ) (S : ℤ) (N : ℕ) :
    make_mask W H S N "vertical"
      = (pyRange W ((max 1 S).toNat * N)).foldl
          (fun m x => paste m (Img.new ((max 1 S).toNat) H ⟨0, 0, 0, 0⟩) x 0)
          (Img.new W H ⟨0, 0, 0, 255⟩) := rfl

lemma make_mask_vertical_height (W H : ℕ) (S : ℤ) (N : ℕ) :
    (make_mask W H S N "vertical").height = H := by
  rw [make_mask_vertical_eq, foldl_paste_height]
  rfl

lemma mask_alpha_core (W H s N : ℕ) (hs : 1 ≤ s) (hN : 1 ≤ N) (c r : ℕ)
    (hc : c < W) (hr : r < H) :
    (((pyRange W (s * N)).foldl
        (fun m x => paste m (Img.new s H ⟨0, 0, 0, 0⟩) x 0)
        (Img.new W H ⟨0, 0, 0, 255⟩)).px c r).a
      = if c % (s * N) < s then 0 else 255 := by
  have hp : 0 < s * N := Nat.mul_pos hs hN
  have hsN : s ≤ s * N := Nat.le_mul_of_pos_right s hN
  have hdm := Nat.div_add_mod c (s * N)
  have hm := Nat.mod_lt c hp
  by_cases hcp : c % (s * N) < s
  · have h0 : touches (fun _ => Img.new s H ⟨0, 0, 0, 0⟩) (s * N * (c / (s * N))) c r := by
      simp only [touches, Img.new]
      refine ⟨Nat.mul_div_le c (s * N), by omega, hr⟩
    have h2 : ∀ x ∈ List.range' (s * N * (c / (s * N) + 1))
        ((W + s * N - 1) / (s * N) - (c / (s * N) + 1)) (s * N),
        ¬ touches (fun _ => Img.new s H ⟨0, 0, 0, 0⟩) x c r := by
      intro x hx
      rw [List.mem_range'] at hx
      obtain ⟨i, hi, rfl⟩ := hx
      simp only [touches, Img.new]
      have hmul : s * N * (c / (s * N) + 1) = s * N * (c / (s * N)) + s * N := by
        rw [Nat.mul_add, Nat.mul_one]
      omega
    rw [if_pos hcp, pyRange_split hp hc,
      foldl_paste_px_hit _ _ _ _ _ _ _ h0 hc hr h2]
    rfl
  · rw [if_neg hcp, foldl_paste_px_untouched]
    · rfl
    intro x hx
    rw [mem_pyRange] at hx
    obtain ⟨i, hi, rfl⟩ := hx
    simp only [touches, Img.new]
    rintro ⟨t1, t2, -⟩
    have hieq : c / (s * N) = i := div_eq_of_between hp t1 (by omega)
    rw [hieq] at hdm
    omega

lemma make_mask_alpha_vertical (W H : ℕ) (S : ℤ) (N : ℕ) (hN : 1 ≤ N)
    (c r : ℕ) (hc : c < W) (hr : r < H) :
    ((make_mask W H S N "vertical").px c r).a
      = if c % ((max 1 S).toNat * N) < (max 1 S).toNat then 0 else 255 := by
  rw [make_mask_vertical_eq]
  exact mask_alpha_core W H ((max 1 S).toNat) N (by omega) hN c r hc hr

lemma div_clamp_eq {S : ℤ} {W x : ℕ} (hS : 1 ≤ S) (hx : x < W) :
    x / clampSlice S W = x / S.toNat := by
  rcases le_or_lt S (W : ℤ) with h | h
  · rw [clampSlice_eq_of_le hS h]
  · rw [clampSlice_eq_of_gt (by omega) h, Nat.div_eq_of_lt hx,
      Nat.div_eq_of_lt (show x < S.toNat by omega)]

/-- C3: with identical parameters (W, H, S, N, vertical), a column is
transparent in the mask exactly when the vertical interlacer assigns it to
source frame index 0 — the interlacer's index for column x being
`(x / clampSlice S W) % N` (lines 86 and 89 of `main.py`). -/
theorem mask_slit_alignment (W H : ℕ) (S : ℤ) (N : ℕ) (x y : ℕ)
    (hS : 1 ≤ S) (hN : 1 ≤ N) (hx : x < W) (hy : y < H) :
    ((make_mask W H S N "vertical").px x y).a = 0
      ↔ (x / clampSlice S W) % N = 0 := by
  rw [make_mask_alpha_vertical W H S N hN x y hx hy, div_clamp_eq hS hx]
  have hmax : (max 1 S).toNat = S.toNat := by omega
  have hpos : 0 < S.toNat := by omega
  rw [hmax, ← mod_mul_lt_iff hpos]
  by_cases hmod : x % (S.toNat * N) < S.toNat
  · simp [hmod]
  · simp [hmod]

/-- Witness for C3 at W=12, H=2, S=2, N=3, column 6, row 0. -/
theorem mask_slit_alignment_witness :
    ((make_mask 12 2 2 3 "vertical").px 6 0).a = 0
      ↔ (6 / clampSlice 2 12) % 3 = 0 :=
  mask_slit_alignment 12 2 2 3 6 0 (by decide) (by decide) (by decide) (by decide)

/-! ### Mask duty cycle -/

lemma colAllAlpha_iff (m : Img) (c v : ℕ) :
    colAllAlpha m c v = true ↔ ∀ r < m.height, (m.px c r).a = v := by
  simp [colAllAlpha, List.all_eq_true, List.mem_range]

lemma card_Ico_filter_mod_lt (a p S : ℕ) (hp : 0 < p) (hS : S ≤ p) :
    ((Finset.Ico a (a + p)).filter fun c => c % p < S).card = S := by
  have hbij : ((Finset.Ico a (a + p)).filter fun c => c % p < S).card
      = (Finset.range S).card := by
    refine Finset.card_bij (fun c _ => c % p) ?_ ?_ ?_
    · intro c hcmem
      rw [Finset.mem_filter] at hcmem
      exact Finset.mem_range.2 hcmem.2
    · intro c1 h1 c2 h2 heq
      rw [Finset.mem_filter] at h1 h2
      exact Nat.mod_injOn_Ico a p (Finset.mem_coe.2 h1.1) (Finset.mem_coe.2 h2.1) heq
    · intro b hb
      have hbp : b ∈ Finset.range p :=
        Finset.mem_range.2 (lt_of_lt_of_le (Finset.mem_range.1 hb) hS)
      rw [← Nat.image_Ico_mod a p] at hbp
      obtain ⟨c, hcmem, hcb⟩ := Finset.mem_image.1 hbp
      refine ⟨c, Finset.mem_filter.2 ⟨hcmem, ?_⟩, hcb⟩
      rw [hcb]
      exact Finset.mem_range.1 hb
  rw [hbij, Finset.card_range]

/-- C2: in any window of S×N consecutive columns fully inside [0, W), the
vertical mask has exactly S fully transparent columns and exactly S×(N−1)
fully opaque columns. -/
theorem make_mask_duty_cycle (W H S N a : ℕ) (hS : 1 ≤ S) (hN : 1 ≤ N)
    (hH : 1 ≤ H) (hwin : a + S * N ≤ W) :
    ((Finset.Ico a (a + S * N)).filter
        (fun c => colAllAlpha (make_mask W H (S : ℤ) N "vertical") c 0 = true)).card = S
    ∧ ((Finset.Ico a (a + S * N)).filter
        (fun c => colAllAlpha (make_mask W H (S : ℤ) N "vertical") c 255 = true)).card
      = S * (N - 1) := by
  have hp : 0 < S * N := Nat.mul_pos hS hN
  have hmax : (max 1 (S : ℤ)).toNat = S := by omega
  have halpha : ∀ c < W, ∀ r < H,
      ((make_mask W H (S : ℤ) N "vertical").px c r).a
        = if c % (S * N) < S then 0 else 255 := by
    intro c hc r hr
    rw [make_mask_alpha_vertical W H (S : ℤ) N hN c r hc hr, hmax]
  have hheight := make_mask_vertical_height W H (S : ℤ) N
  have htr : ∀ c ∈ Finset.Ico a (a + S * N),
      (colAllAlpha (make_mask W H (S : ℤ) N "vertical") c 0 = true
        ↔ c % (S * N) < S) := by
    intro c hcmem
    rw [Finset.mem_Ico] at hcmem
    have hcW : c < W := by omega
    rw [colAllAlpha_iff, hheight]
    constructor
    · intro hall
      have h0 := hall 0 hH
      rw [halpha c hcW 0 hH] at h0
      by_contra hno
      rw [if_neg hno] at h0
      exact absurd h0 (by omega)
    · intro hmod r hr
      rw [halpha c hcW r hr, if_pos hmod]
  have hop : ∀ c ∈ Finset.Ico a (a + S * N),
      (colAllAlpha (make_mask W H (S : ℤ) N "vertical") c 255 = true
        ↔ ¬ c % (S * N) < S) := by
    intro c hcmem
    rw [Finset.mem_Ico] at hcmem
    have hcW : c < W := by omega
    rw [colAllAlpha_iff, hheight]
    constructor
    · intro hall
      have h0 := hall 0 hH
      rw [halpha c hcW 0 hH] at h0
      intro hyes
      rw [if_pos hyes] at h0
      exact absurd h0 (by omega)
    · intro hmod r hr
      rw [halpha c hcW r hr, if_neg hmod]
  rw [Finset.filter_congr htr, Finset.filter_congr hop]
  have hcount := card_Ico_filter_mod_lt a (S * N) S hp (Nat.le_mul_of_pos_right S hN)
  have hsum := Finset.filter_card_add_filter_neg_card_eq_card
    (s := Finset.Ico a (a + S * N)) (fun c => c % (S * N) < S)
  rw [Nat.card_Ico, hcount] at hsum
  obtain ⟨M, rfl⟩ : ∃ M, N = M + 1 := ⟨N - 1, by omega⟩
  refine ⟨hcount, ?_⟩
  have h1 : S * (M + 1) = S * M + S := by rw [Nat.mul_add, Nat.mul_one]
  have h2 : S * (M + 1 - 1) = S * M := by norm_num
  omega

/-- Witness for C2: the spec's mask scenario W=12, S=2, N=3 — the first
full period holds exactly 2 transparent and 4 opaque columns, and the
transparent columns over the whole width are exactly 0, 1, 6, 7. -/
theorem make_mask_duty_cycle_witness :
    ((Finset.Ico 0 (0 + 2 * 3)).filter
        (fun c => colAllAlpha (make_mask 12 2 ((2 : ℕ) : ℤ) 3 "vertical") c 0 = true)).card = 2
    ∧ ((Finset.Ico 0 (0 + 2 * 3)).filter
        (fun c => colAllAlpha (make_mask 12 2 ((2 : ℕ) : ℤ) 3 "vertical") c 255 = true)).card
      = 2 * (3 - 1)
    ∧ (Finset.Ico 0 12).filter
        (fun c => colAllAlpha (make_mask 12 2 2 3 "vertical") c 0 = true) = {0, 1, 6, 7} :=
  ⟨(make_mask_duty_cycle 12 2 2 3 0 (by decide) (by decide) (by decide) (by decide)).1,
   (make_mask_duty_cycle 12 2 2 3 0 (by decide) (by decide) (by decide) (by decide)).2,
   by decide⟩

/-! ### Stripe partition and boundary truncation -/

lemma pyRange_getLastD (W s : ℕ) (hs : 1 ≤ s) (hW : 1 ≤ W) :
    (pyRange W s).getLastD 0 = s * ((W - 1) / s) := by
  unfold pyRange
  rw [stripe_count_pos hs hW, List.range'_concat, List.getLastD_concat, Nat.zero_add]

/-- C4: for W not a multiple of S (S ≥ 1), the vertical interlacer's
stripes — start columns `pyRange W s` (line 88 of `main.py`) with ends
`min (x + s) W` (line 91) for the clamped slice `s` — cover [0, W) with no
gaps or overlaps; every stripe's column range stays inside [0, W) (so all
frame reads and canvas writes are in bounds), and the final stripe has
width exactly W mod S. -/
theorem stripe_partition_truncation (W S : ℕ) (hS : 1 ≤ S) (hW : W % S ≠ 0) :
    (∀ c < W, ∃! x, x ∈ pyRange W (clampSlice (S : ℤ) W)
        ∧ x ≤ c ∧ c < min (x + clampSlice (S : ℤ) W) W)
    ∧ (∀ x ∈ pyRange W (clampSlice (S : ℤ) W),
        x < W ∧ min (x + clampSlice (S : ℤ) W) W ≤ W)
    ∧ min ((pyRange W (clampSlice (S : ℤ) W)).getLastD 0 + clampSlice (S : ℤ) W) W
        - (pyRange W (clampSlice (S : ℤ) W)).getLastD 0 = W % S := by
  have hW1 : 1 ≤ W := by
    rcases Nat.eq_zero_or_pos W with h | h
    · exact absurd (by simp [h]) hW
    · exact h
  have hs1 : 1 ≤ clampSlice (S : ℤ) W := clampSlice_pos (S : ℤ) W
  refine ⟨?_, ?_, ?_⟩
  · intro c hc
    have hle : clampSlice (S : ℤ) W * (c / clampSlice (S : ℤ) W) ≤ c :=
      Nat.mul_div_le c (clampSlice (S : ℤ) W)
    have hlt : c < clampSlice (S : ℤ) W * (c / clampSlice (S : ℤ) W)
        + clampSlice (S : ℤ) W := by
      have h1 := Nat.div_add_mod c (clampSlice (S : ℤ) W)
      have h2 := Nat.mod_lt c hs1
      omega
    refine ⟨clampSlice (S : ℤ) W * (c / clampSlice (S : ℤ) W),
      ⟨mem_pyRange.2 ⟨c / clampSlice (S : ℤ) W, div_lt_stripe_count hs1 hc, rfl⟩,
        hle, by omega⟩, ?_⟩
    rintro y ⟨hymem, hy1, hy2⟩
    obtain ⟨i, hi, rfl⟩ := mem_pyRange.1 hymem
    have hieq : c / clampSlice (S : ℤ) W = i :=
      div_eq_of_between hs1 hy1 (by omega)
    rw [hieq]
  · intro x hx
    obtain ⟨i, hi, rfl⟩ := mem_pyRange.1 hx
    rw [stripe_count_pos hs1 hW1] at hi
    have h1 : clampSlice (S : ℤ) W * i
        ≤ clampSlice (S : ℤ) W * ((W - 1) / clampSlice (S : ℤ) W) :=
      Nat.mul_le_mul_left _ (by omega)
    have h2 := Nat.mul_div_le (W - 1) (clampSlice (S : ℤ) W)
    omega
  · rw [pyRange_getLastD W _ hs1 hW1]
    have hdm := Nat.div_add_mod W S
    have hmod := Nat.mod_lt W (show 0 < S by omega)
    rcases le_or_lt S W with hSW | hSW
    · have hs_eq : clampSlice (S : ℤ) W = S := by
        simp only [clampSlice]
        omega
      rw [hs_eq]
      have hdiv : (W - 1) / S = W / S :=
        div_eq_of_between (by omega) (by omega) (by omega)
      rw [hdiv]
      omega
    · have hs_eq : clampSlice (S : ℤ) W = W := by
        simp only [clampSlice]
        omega
      rw [hs_eq, Nat.div_eq_of_lt (show W - 1 < W by omega), Nat.mul_zero,
        Nat.mod_eq_of_lt hSW]
      omega

/-- Witness for C4 at W=7, S=3: the final stripe is [6, 7), of width
7 mod 3 = 1. -/
theorem stripe_partition_truncation_witness :
    min ((pyRange 7 (clampSlice ((3 : ℕ) : ℤ) 7)).getLastD 0 + clampSlice ((3 : ℕ) : ℤ) 7) 7
        - (pyRange 7 (clampSlice ((3 : ℕ) : ℤ) 7)).getLastD 0 = 7 % 3 :=
  (stripe_partition_truncation 7 3 (by decide) (by decide)).2.2

/-! ### Size unification -/

lemma listMin_le {l : List ℕ} {x : ℕ} (hx : x ∈ l) : listMin l ≤ x := by
  induction l with
  | nil => cases hx
  | cons a t ih =>
    cases t with
    | nil =>
      rw [List.mem_singleton] at hx
      simp [listMin, hx]
    | cons b t2 =>
      rw [List.mem_cons] at hx
      rcases hx with rfl | hx
      · simp [listMin]
      · have := ih hx
        simp only [listMin]
        omega

lemma listMin_mem {l : List ℕ} (h : l ≠ []) : listMin l ∈ l := by
  induction l with
  | nil => exact absurd rfl h
  | cons a t ih =>
    cases t with
    | nil => simp [listMin]
    | cons b t2 =>
      rcases le_total a (listMin (b :: t2)) with hab | hab
      · simp only [listMin]
        rw [min_eq_left hab]
        exact List.mem_cons_self ..
      · simp only [listMin]
        rw [min_eq_right hab]
        exact List.mem_cons_of_mem a (ih (by simp))

/-- C5: with strategy `min` and at least two frames, `unify_sizes` succeeds
and returns the per-axis minima (W, H) of the input sizes — each axis
minimised independently — and a frame list of the same length in which
every frame has exactly size (W, H). -/
theorem unify_sizes_min_strategy (imgs : List Img) (hN : 2 ≤ imgs.length) :
    ∃ out, unify_sizes imgs "min"
        = Except.ok (out, listMin (imgs.map Img.width), listMin (imgs.map Img.height))
      ∧ (∀ im ∈ imgs, listMin (imgs.map Img.width) ≤ im.width
          ∧ listMin (imgs.map Img.height) ≤ im.height)
      ∧ (∃ im ∈ imgs, im.width = listMin (imgs.map Img.width))
      ∧ (∃ im ∈ imgs, im.height = listMin (imgs.map Img.height))
      ∧ out.length = imgs.length
      ∧ ∀ o ∈ out, o.width = listMin (imgs.map Img.width)
          ∧ o.height = listMin (imgs.map Img.height) := by
  obtain ⟨im0, rest, rfl⟩ : ∃ a t, imgs = a :: t := by
    cases imgs with
    | nil => simp at hN
    | cons a t => exact ⟨a, t, rfl⟩
  refine ⟨resizeAll (im0 :: rest) (listMin ((im0 :: rest).map Img.width))
      (listMin ((im0 :: rest).map Img.height)), rfl, ?_, ?_, ?_, ?_, ?_⟩
  · intro im him
    exact ⟨listMin_le (List.mem_map_of_mem Img.width him),
      listMin_le (List.mem_map_of_mem Img.height him)⟩
  · have := listMin_mem (l := (im0 :: rest).map Img.width) (by simp)
    obtain ⟨im, him, heq⟩ := List.mem_map.1 this
    exact ⟨im, him, heq⟩
  · have := listMin_mem (l := (im0 :: rest).map Img.height) (by simp)
    obtain ⟨im, him, heq⟩ := List.mem_map.1 this
    exact ⟨im, him, heq⟩
  · exact List.length_map ..
  · intro o ho
    obtain ⟨im, him, heq⟩ := List.mem_map.1 ho
    by_cases hsz : im.width ≠ listMin ((im0 :: rest).map Img.width)
        ∨ im.height ≠ listMin ((im0 :: rest).map Img.height)
    · rw [if_pos hsz] at heq
      rw [← heq]
      exact ⟨rfl, rfl⟩
    · rw [if_neg hsz] at heq
      push_neg at hsz
      rw [← heq]
      exact hsz

/-- Witness for C5: frames 5×3, 4×9 and 6×7 unify under `min` to 4×3 —
note no single input frame has size 4×3. -/
theorem unify_sizes_min_strategy_witness :
    ∃ out, unify_sizes
        [Img.new 5 3 ⟨0, 0, 0, 255⟩, Img.new 4 9 ⟨0, 0, 0, 255⟩, Img.new 6 7 ⟨0, 0, 0, 255⟩]
        "min"
        = Except.ok (out,
            listMin ([Img.new 5 3 ⟨0, 0, 0, 255⟩, Img.new 4 9 ⟨0, 0, 0, 255⟩,
              Img.new 6 7 ⟨0, 0, 0, 255⟩].map Img.width),
            listMin ([Img.new 5 3 ⟨0, 0, 0, 255⟩, Img.new 4 9 ⟨0, 0, 0, 255⟩,
              Img.new 6 7 ⟨0, 0, 0, 255⟩].map Img.height))
      ∧ (∀ im ∈ [Img.new 5 3 ⟨0, 0, 0, 255⟩, Img.new 4 9 ⟨0, 0, 0, 255⟩,
            Img.new 6 7 ⟨0, 0, 0, 255⟩],
          listMin ([Img.new 5 3 ⟨0, 0, 0, 255⟩, Img.new 4 9 ⟨0, 0, 0, 255⟩,
            Img.new 6 7 ⟨0, 0, 0, 255⟩].map Img.width) ≤ im.width
          ∧ listMin ([Img.new 5 3 ⟨0, 0, 0, 255⟩, Img.new 4 9 ⟨0, 0, 0, 255⟩,
            Img.new 6 7 ⟨0, 0, 0, 255⟩].map Img.height) ≤ im.height)
      ∧ (∃ im ∈ [Img.new 5 3 ⟨0, 0, 0, 255⟩, Img.new 4 9 ⟨0, 0, 0, 255⟩,
          Img.new 6 7 ⟨0, 0, 0, 255⟩],
          im.width = listMin ([Img.new 5 3 ⟨0, 0, 0, 255⟩, Img.new 4 9 ⟨0, 0, 0, 255⟩,
            Img.new 6 7 ⟨0, 0, 0, 255⟩].map Img.width))
      ∧ (∃ im ∈ [Img.new 5 3 ⟨0, 0, 0, 255⟩, Img.new 4 9 ⟨0, 0, 0, 255⟩,
          Img.new 6 7 ⟨0, 0, 0, 255⟩],
          im.height = listMin ([Img.new 5 3 ⟨0, 0, 0, 255⟩, Img.new 4 9 ⟨0, 0, 0, 255⟩,
            Img.new 6 7 ⟨0, 0, 0, 255⟩].map Img.height))
      ∧ out.length = [Img.new 5 3 ⟨0, 0, 0, 255⟩, Img.new 4 9 ⟨0, 0, 0, 255⟩,
          Img.new 6 7 ⟨0, 0, 0, 255⟩].length
      ∧ ∀ o ∈ out, o.width = listMin ([Img.new 5 3 ⟨0, 0, 0, 255⟩,
            Img.new 4 9 ⟨0, 0, 0, 255⟩, Img.new 6 7 ⟨0, 0, 0, 255⟩].map Img.width)
          ∧ o.height = listMin ([Img.new 5 3 ⟨0, 0, 0, 255⟩, Img.new 4 9 ⟨0, 0, 0, 255⟩,
            Img.new 6 7 ⟨0, 0, 0, 255⟩].map Img.height) :=
  unify_sizes_min_strategy
    [Img.new 5 3 ⟨0, 0, 0, 255⟩, Img.new 4 9 ⟨0, 0, 0, 255⟩, Img.new 6 7 ⟨0, 0, 0, 255⟩]
    (by decide)

/-! ### White-background compositing -/

/-- C6: on any RGBA canvas, white-background compositing yields a fully
opaque image; a pixel of alpha 0 becomes exactly white (255, 255, 255),
and a pixel of alpha 255 keeps its RGB channels unchanged. -/
theorem composite_on_white_extremes (img : Img) (x y : ℕ) :
    ((composite_on_white img).px x y).a = 255
    ∧ ((img.px x y).a = 0 →
        (composite_on_white img).px x y = ⟨255, 255, 255, 255⟩)
    ∧ ((img.px x y).a = 255 →
        ((composite_on_white img).px x y).r = (img.px x y).r
        ∧ ((composite_on_white img).px x y).g = (img.px x y).g
        ∧ ((composite_on_white img).px x y).b = (img.px x y).b) := by
  refine ⟨rfl, ?_, ?_⟩
  · intro h0
    simp only [composite_on_white, blend, h0]
    norm_num
  · intro h255
    simp only [composite_on_white, blend, h255]
    refine ⟨?_, ?_, ?_⟩ <;> omega

/-- Witness for C6: on `testCanvas`, the transparent pixel becomes exactly
white and the opaque pixel keeps its RGB values. -/
theorem composite_on_white_extremes_witness :
    (composite_on_white testCanvas).px 0 0 = ⟨255, 255, 255, 255⟩
    ∧ (((composite_on_white testCanvas).px 1 0).r = (testCanvas.px 1 0).r
        ∧ ((composite_on_white testCanvas).px 1 0).g = (testCanvas.px 1 0).g
        ∧ ((composite_on_white testCanvas).px 1 0).b = (testCanvas.px 1 0).b) :=
  ⟨(composite_on_white_extremes testCanvas 0 0).2.1 (by decide),
   (composite_on_white_extremes testCanvas 1 0).2.2 (by decide)⟩

/-! ### Frame-count checks and the main pipeline -/

/-- Counterexample for C7: a one-frame input has fewer than 2 frames, yet
`unify_sizes` succeeds under both strategies instead of failing with an
`EmptyFrameSet` error. -/
theorem unify_sizes_single_frame_ok :
    List.length [Img.new 3 2 ⟨1, 2, 3, 4⟩] < 2
    ∧ exceptIsOk (unify_sizes [Img.new 3 2 ⟨1, 2, 3, 4⟩] "first") = true
    ∧ exceptIsOk (unify_sizes [Img.new 3 2 ⟨1, 2, 3, 4⟩] "min") = true :=
  ⟨by decide, rfl, rfl⟩

/-- C7 amended: `unify_sizes` performs no frame-count check of its own — a
single-frame input succeeds under every strategy, and only the empty input
fails, with an IndexError (`first`) or a ValueError (any other mode),
never an EmptyFrameSet error. -/
theorem unify_sizes_no_framecount_check (im : Img) (mode : String)
    (hm : mode ≠ "first") :
    exceptIsOk (unify_sizes [im] mode) = true
    ∧ exceptIsOk (unify_sizes [im] "first") = true
    ∧ unify_sizes [] "first" = Except.error UnifyError.indexError
    ∧ unify_sizes [] mode = Except.error UnifyError.valueError := by
  refine ⟨?_, rfl, rfl, ?_⟩
  · unfold unify_sizes
    rw [if_neg hm]
    rfl
  · unfold unify_sizes
    rw [if_neg hm]

/-- Witness for the amended C7 at a concrete frame and the `min` strategy. -/
theorem unify_sizes_no_framecount_check_witness :
    exceptIsOk (unify_sizes [Img.new 3 2 ⟨1, 2, 3, 4⟩] "min") = true
    ∧ exceptIsOk (unify_sizes [Img.new 3 2 ⟨1, 2, 3, 4⟩] "first") = true
    ∧ unify_sizes [] "first" = Except.error UnifyError.indexError
    ∧ unify_sizes [] "min" = Except.error UnifyError.valueError :=
  unify_sizes_no_framecount_check (Img.new 3 2 ⟨1, 2, 3, 4⟩) "min" (by decide)

/-- C8: when the directory exists but fewer than 2 image files are
collected, the run aborts with the descriptive insufficient-frames message
and exit code 1, and no output file at all is written. -/
theorem main_insufficient_frames_aborts (env : Env) (args : Args)
    (hd : env.dirExists = true) (hn : env.files.length < 2) :
    mainRun env args = ([], Outcome.abort (insufficientMsg env) 1) := by
  unfold mainRun
  rw [hd, if_neg (by decide : ¬ (true = false)), if_pos hn]

/-- Witness for C8: one collected file aborts the run with no effects. -/
theorem main_insufficient_frames_aborts_witness :
    mainRun envOneFile argsDefault = ([], Outcome.abort (insufficientMsg envOneFile) 1) :=
  main_insufficient_frames_aborts envOneFile argsDefault rfl (by decide)

/-- C9: a non-positive slice is clamped to 1 by all three geometry
functions — `interlace_vertical`, `interlace_horizontal` and `make_mask`
each return exactly the image they produce for slice 1. -/
theorem nonpositive_slice_defaults (frames : List Img) (W H N : ℕ) (S : ℤ)
    (dir : String) (hS : S ≤ 0) :
    interlace_vertical frames W H S = interlace_vertical frames W H 1
    ∧ interlace_horizontal frames W H S = interlace_horizontal frames W H 1
    ∧ make_mask W H S N dir = make_mask W H 1 N dir := by
  have hc : ∀ L : ℕ, clampSlice S L = clampSlice 1 L := by
    intro L
    simp only [clampSlice]
    omega
  have hm : (max 1 S).toNat = (max 1 (1 : ℤ)).toNat := by omega
  refine ⟨?_, ?_, ?_⟩
  · unfold interlace_vertical
    rw [hc W]
  · unfold interlace_horizontal
    rw [hc H]
  · unfold make_mask
    rw [hm]

/-- Witness for C9 at slice −3 on a concrete 4×2 geometry. -/
theorem nonpositive_slice_defaults_witness :
    interlace_vertical [redF, greenF] 4 2 (-3) = interlace_vertical [redF, greenF] 4 2 1
    ∧ interlace_horizontal [redF, greenF] 4 2 (-3)
        = interlace_horizontal [redF, greenF] 4 2 1
    ∧ make_mask 4 2 (-3) 2 "vertical" = make_mask 4 2 1 2 "vertical" :=
  nonpositive_slice_defaults [redF, greenF] 4 2 2 (-3) "vertical" (by decide)

lemma mainRun_ok (env : Env) (args : Args) (frames0 frames : List Img)
    (W H : ℕ) (hd : env.dirExists = true) (hn : 2 ≤ env.files.length)
    (hload : load_frames env.decode env.files = Except.ok frames0)
    (hunify : unify_sizes frames0 args.resize = Except.ok (frames, W, H)) :
    mainRun env args = (mainOutputs args frames W H, Outcome.success) := by
  unfold mainRun
  rw [hd, if_neg (by decide : ¬ (true = false)), if_neg (by omega)]
  rw [hload]
  simp only [hunify]

/-- C10: when both the white-background and the force-RGB post-pass options
are requested, the saved base image is the white-background composite of
the interlaced canvas, and the whole run is identical to one in which
force-RGB was never requested — the drop-alpha conversion is not applied. -/
theorem white_bg_precedence (env : Env) (args : Args) (frames0 frames : List Img)
    (W H : ℕ) (hwb : args.white_bg = true) (hfr : args.force_rgb = true)
    (hd : env.dirExists = true) (hn : 2 ≤ env.files.length)
    (hload : load_frames env.decode env.files = Except.ok frames0)
    (hunify : unify_sizes frames0 args.resize = Except.ok (frames, W, H)) :
    (mainRun env args).1.head? = some (Effect.save args.out_base
        (composite_on_white (baseCanvas frames W H args)))
    ∧ mainRun env args = mainRun env { args with force_rgb := false } := by
  have h1 := mainRun_ok env args frames0 frames W H hd hn hload hunify
  have h2 := mainRun_ok env { args with force_rgb := false } frames0 frames W H
    hd hn hload hunify
  constructor
  · rw [h1]
    unfold mainOutputs
    cases hm : args.out_mask <;> simp [postPass, hwb]
  · rw [h1, h2]
    unfold mainOutputs
    cases hm : args.out_mask <;> simp [postPass, baseCanvas, hwb]

/-- Witness for C10 on a concrete two-frame run with both options set. -/
theorem white_bg_precedence_witness :
    (mainRun envTwoFiles argsBothPost).1.head? = some (Effect.save argsBothPost.out_base
        (composite_on_white (baseCanvas [Img.new 3 2 ⟨1, 2, 3, 4⟩, Img.new 3 2 ⟨1, 2, 3, 4⟩]
          3 2 argsBothPost)))
    ∧ mainRun envTwoFiles argsBothPost
        = mainRun envTwoFiles { argsBothPost with force_rgb := false } :=
  white_bg_precedence envTwoFiles argsBothPost
    [Img.new 3 2 ⟨1, 2, 3, 4⟩, Img.new 3 2 ⟨1, 2, 3, 4⟩]
    [Img.new 3 2 ⟨1, 2, 3, 4⟩, Img.new 3 2 ⟨1, 2, 3, 4⟩] 3 2
    rfl rfl rfl (by decide) rfl rfl

end Scanimation
